import Mathlib

/-!
# SpeedTestApp (src/main.js): a shallow embedding

The measurement logic of `SpeedTestApp` is embedded as pure functions and step
functions over explicit state.

Modelling conventions.

* A JavaScript number is a `JSNum`: an exact rational, or one of the IEEE special
  values `Infinity`, `-Infinity`, `NaN`.  Division by zero produces the special
  values exactly as in JavaScript.  Rounding of binary floating point and the
  sign of zero are not modelled: finite arithmetic is exact.
* Clock readings of `performance.now()` are rationals (milliseconds) supplied by
  the environment.
* An `async` function is modelled by the settlement of its promise:
  `Except.ok v` is fulfilment with `v`, `Except.error e` is rejection with `e`;
  where the promise can stay pending under the supplied events the result is an
  `Option`, `none` meaning still pending.
* Timers and network events are supplied as explicit scripts (lists of events,
  counts of timer firings, streams of `Math.random()` draws).
-/

namespace SpeedTest

/-! ## JavaScript numbers -/

/-- A JavaScript number: finite (exact rational), plus or minus infinity, or NaN. -/
inductive JSNum where
  | fin (q : ℚ)
  | posInf
  | negInf
  | nan
  deriving DecidableEq, Repr

namespace JSNum

/-- JavaScript `a + b` on numbers. -/
def add : JSNum → JSNum → JSNum
  | fin a, fin b => fin (a + b)
  | nan, _ => nan
  | _, nan => nan
  | posInf, negInf => nan
  | negInf, posInf => nan
  | posInf, _ => posInf
  | _, posInf => posInf
  | negInf, _ => negInf
  | _, negInf => negInf

/-- JavaScript unary minus. -/
def neg : JSNum → JSNum
  | fin a => fin (-a)
  | posInf => negInf
  | negInf => posInf
  | nan => nan

/-- JavaScript `a - b` on numbers. -/
def sub (a b : JSNum) : JSNum := add a (neg b)

/-- The infinity with the sign of `q`; `NaN` when `q = 0` (used for `Infinity * q`). -/
def infTimes (q : ℚ) : JSNum :=
  if q = 0 then nan else if 0 < q then posInf else negInf

/-- JavaScript `a * b` on numbers. -/
def mul : JSNum → JSNum → JSNum
  | fin a, fin b => fin (a * b)
  | nan, _ => nan
  | _, nan => nan
  | posInf, fin b => infTimes b
  | fin a, posInf => infTimes a
  | negInf, fin b => infTimes (-b)
  | fin a, negInf => infTimes (-a)
  | posInf, posInf => posInf
  | negInf, negInf => posInf
  | posInf, negInf => negInf
  | negInf, posInf => negInf

/-- JavaScript `a / b` on numbers: `0/0` is `NaN`, `x/0` is an infinity with the
sign of `x` (the divisor zero is taken as `+0`). -/
def div : JSNum → JSNum → JSNum
  | fin a, fin b =>
    if b = 0 then (if a = 0 then nan else if 0 < a then posInf else negInf)
    else fin (a / b)
  | nan, _ => nan
  | _, nan => nan
  | fin _, posInf => fin 0
  | fin _, negInf => fin 0
  | posInf, fin b => if 0 ≤ b then posInf else negInf
  | negInf, fin b => if 0 ≤ b then negInf else posInf
  | posInf, posInf => nan
  | posInf, negInf => nan
  | negInf, posInf => nan
  | negInf, negInf => nan

/-- JavaScript `a < b` on numbers (false as soon as one side is `NaN`). -/
def lt : JSNum → JSNum → Bool
  | fin a, fin b => decide (a < b)
  | nan, _ => false
  | _, nan => false
  | negInf, negInf => false
  | negInf, _ => true
  | _, negInf => false
  | posInf, _ => false
  | fin _, posInf => true

/-- JavaScript `a > b`. -/
def gt (a b : JSNum) : Bool := lt b a

/-- JavaScript `a <= b` on numbers (false as soon as one side is `NaN`). -/
def le : JSNum → JSNum → Bool
  | fin a, fin b => decide (a ≤ b)
  | nan, _ => false
  | _, nan => false
  | negInf, _ => true
  | _, posInf => true
  | posInf, _ => false
  | fin _, negInf => false

/-- JavaScript `a >= b`. -/
def ge (a b : JSNum) : Bool := le b a

instance : Add JSNum := ⟨add⟩
instance : Sub JSNum := ⟨sub⟩
instance : Mul JSNum := ⟨mul⟩
instance : Div JSNum := ⟨div⟩
instance : OfNat JSNum n := ⟨fin n⟩
instance : Inhabited JSNum := ⟨fin 0⟩

end JSNum

/-! ## The user interface state -/

/-- The text content of a DOM element.  `toFixed` is kept symbolic:
`fixed v d s` stands for `v.toFixed(d) + s`. -/
inductive Text where
  | lit (s : String)
  | fixed (v : JSNum) (digits : Nat) (suffix : String)
  deriving DecidableEq, Repr

/-- The fields of `SpeedTestApp` and of the DOM elements it writes.
`statusLog` and `alerts` are observation traces: every message passed to
`setStatus`, every message passed to `alert`, oldest first. -/
structure UI where
  status : String
  statusLog : List String
  alerts : List String
  mainSpeed : Text
  strokeDasharray : JSNum × JSNum
  pingInd : Bool
  dlInd : Bool
  ulInd : Bool
  pingVal : Text
  dlVal : Text
  ulVal : Text
  isTesting : Bool
  btnDisabled : Bool
  btnText : String
  loaderActive : Bool
  deriving DecidableEq, Repr

/-- Constructor field `this.pathLength`. -/
def pathLength : JSNum := 400

/-- Constructor field `this.maxSpeedForGauge`. -/
def maxSpeedForGauge : JSNum := 100

/-- Method `setGaugePercent(percent)`: writes `drawLength, gapLength` into
`strokeDasharray`. -/
def setGaugePercent (ui : UI) (percent : JSNum) : UI :=
  let drawLength := pathLength * percent
  let gapLength := pathLength
  { ui with strokeDasharray := (drawLength, gapLength) }

/-- The value `p` handed to `setGaugePercent` by `updateUI(speedMbps)`. -/
def gaugeFraction (speedMbps : JSNum) : JSNum :=
  let p := speedMbps / maxSpeedForGauge
  if JSNum.gt p 1 then 1 else p

/-- Method `updateUI(speedMbps)`. -/
def updateUI (ui : UI) (speedMbps : JSNum) : UI :=
  let ui := { ui with mainSpeed := Text.fixed speedMbps 1 "" }
  let p := speedMbps / maxSpeedForGauge
  let p := if JSNum.gt p 1 then 1 else p
  setGaugePercent ui p

/-- Method `setStatus(msg)`. -/
def setStatus (ui : UI) (msg : String) : UI :=
  { ui with status := msg, statusLog := ui.statusLog ++ [msg] }

/-- Method `setActiveIndicator(type)`. -/
def setActiveIndicator (ui : UI) (type : String) : UI :=
  { ui with
    pingInd := decide (type = "ping"),
    dlInd := decide (type = "dl"),
    ulInd := decide (type = "ul") }

/-- The state the constructor leaves behind: gauge at 0, not testing. -/
def initialUI : UI :=
  setGaugePercent
    { status := "", statusLog := [], alerts := [], mainSpeed := Text.lit "",
      strokeDasharray := (0, 0), pingInd := false, dlInd := false, ulInd := false,
      pingVal := Text.lit "", dlVal := Text.lit "", ulVal := Text.lit "",
      isTesting := false, btnDisabled := false, btnText := "", loaderActive := false }
    0

/-! ## Latency: `measurePing` -/

/-- One latency probe as seen by `measurePing`: the reading `start`, and the
reading `end` taken after the `fetch` when it fulfils (`none` when it rejects). -/
structure Probe where
  start : ℚ
  finish : Option ℚ
  deriving DecidableEq, Repr

/-- The `for` loop of `measurePing`: `n` iterations left, loop index `i`, the
array `pings` built so far. -/
def pingLoop (probe : Nat → Probe) : Nat → Nat → List JSNum → List JSNum
  | 0, _, pings => pings
  | n + 1, i, pings =>
    let start := (probe i).start
    match (probe i).finish with
    | some e => pingLoop probe n (i + 1) (pings ++ [JSNum.fin e - JSNum.fin start])
    | none => pingLoop probe n (i + 1) pings

/-- Array method `reduce((a,b)=>a+b)` without initial value: throws on the empty
array, otherwise folds from the first element. -/
def reduceAdd : List JSNum → Except String JSNum
  | [] => .error "TypeError: Reduce of empty array with no initial value"
  | a :: rest => .ok (rest.foldl (fun x y => x + y) a)

/-- Method `measurePing()`. -/
def measurePing (probe : Nat → Probe) : Except String JSNum :=
  let pings := pingLoop probe 5 0 []
  if pings.length = 0 then .ok 0
  else
    match reduceAdd pings with
    | .error e => .error e
    | .ok s => .ok (s / JSNum.fin pings.length)

/-- The durations `end - start` of the probes among the five whose `fetch`
fulfilled, in probe order. -/
def successDurations (probe : Nat → Probe) : List ℚ :=
  (List.range 5).filterMap (fun i => (probe i).finish.map (fun e => e - (probe i).start))

/-! ## Download: `measureDownload` -/

/-- Local constant `duration` of `measureDownload` (milliseconds). -/
def duration : ℚ := 4000

/-- Local constant `chunks` of `measureDownload`: the number of simultaneous
workers.  Worker identifiers are elements of `Fin 4`. -/
def chunks : Nat := 4

/-- The `setInterval` callback of `measureDownload`, run at clock reading `now`
with the counter at `totalBytes`: the value it passes to `updateUI`, or `none`
when the guard `elapsedSec > 0` skips the update. -/
def samplerTick (startTime : ℚ) (totalBytes : Nat) (now : ℚ) : Option JSNum :=
  let elapsedSec := (JSNum.fin now - JSNum.fin startTime) / 1000
  if JSNum.gt elapsedSec 0 then
    let bits := JSNum.fin totalBytes * 8
    let mbps := (bits / elapsedSec) / 1000000
    some mbps
  else none

/-- The loop condition `performance.now() - startTime < duration` of `performFetch`. -/
def loopCond (startTime now : ℚ) : Bool :=
  JSNum.lt (JSNum.fin now - JSNum.fin startTime) (JSNum.fin duration)

/-- What the event loop delivers during the download phase.
* `tick now`: the sampler interval fires at clock reading `now`;
* `fetched w size now`: the pending `fetch` and `blob()` of worker `w` fulfil with a
  body of `size` bytes, and the worker reads the clock as `now` at its next loop test;
* `failed w`: the pending `fetch` (or `blob()`) of worker `w` rejects. -/
inductive DlEvent where
  | tick (now : ℚ)
  | fetched (w : Fin 4) (size : Nat) (now : ℚ)
  | failed (w : Fin 4)
  deriving DecidableEq, Repr

/-- State of the download phase: the shared counter `totalBytes`, which workers
still have a `fetch` pending, and the user interface. -/
structure DlState where
  totalBytes : Nat
  running : Fin 4 → Bool
  ui : UI

/-- One event of the download phase.
* `tick`: the body of the `setInterval` callback.
* `fetched`: the `try` branch of the loop of `performFetch`, `totalBytes += blob.size`,
  followed by the next evaluation of the `while` condition.
* `failed`: the `catch` branch of `performFetch`, `break`.
Events addressed to a worker that has already left its loop are ignored. -/
def dlStep (startTime : ℚ) (st : DlState) : DlEvent → DlState
  | .tick now =>
    match samplerTick startTime st.totalBytes now with
    | some mbps => { st with ui := updateUI st.ui mbps }
    | none => st
  | .fetched w size now =>
    if st.running w then
      { st with
        totalBytes := st.totalBytes + size,
        running := Function.update st.running w (loopCond startTime now) }
    else st
  | .failed w =>
    if st.running w then
      { st with running := Function.update st.running w false }
    else st

/-- Every `performFetch` promise has settled. -/
def allDone (st : DlState) : Bool :=
  !st.running 0 && !st.running 1 && !st.running 2 && !st.running 3

/-- Runs the download phase over the delivered events until `Promise.all`
settles (every worker has left its loop) or the events are exhausted. -/
def dlRun (startTime : ℚ) : DlState → List DlEvent → DlState
  | st, [] => st
  | st, e :: rest => if allDone st then st else dlRun startTime (dlStep startTime st e) rest

/-- What the environment supplies to one call of `measureDownload`: the reading
`startTime`, the clock reading at the first loop test of each worker, the
delivered events, and the reading taken for the final calculation. -/
structure DlInput where
  startTime : ℚ
  first : Fin 4 → ℚ
  events : List DlEvent
  endTime : ℚ

/-- State of the download phase once the four `performFetch()` calls have run
up to their first `await`. -/
def dlInit (inp : DlInput) (ui : UI) : DlState :=
  { totalBytes := 0, running := fun w => loopCond inp.startTime (inp.first w), ui := ui }

/-- The final calculation of `measureDownload`. -/
def finalCalc (startTime : ℚ) (totalBytes : Nat) (endTime : ℚ) : JSNum :=
  let finalSec := (JSNum.fin endTime - JSNum.fin startTime) / 1000
  let finalMbps := ((JSNum.fin totalBytes * 8) / finalSec) / 1000000
  finalMbps

/-- Method `measureDownload()`: the user interface it leaves and the settlement
of its promise (`none`: a worker is still waiting when the events end). -/
def measureDownload (inp : DlInput) (ui : UI) : UI × Option (Except String JSNum) :=
  let st := dlRun inp.startTime (dlInit inp ui) inp.events
  if allDone st then
    (st.ui, some (.ok (finalCalc inp.startTime st.totalBytes inp.endTime)))
  else (st.ui, none)

/-- The counter `totalBytes` when `measureDownload` stops consuming events. -/
def finalBytes (inp : DlInput) (ui : UI) : Nat :=
  (dlRun inp.startTime (dlInit inp ui) inp.events).totalBytes

/-- One step of a single worker, seen in isolation: its pending fetch fulfils
with `size` bytes and the next loop test reads `now`, or it rejects. -/
inductive WorkerStep where
  | fetched (size : Nat) (now : ℚ)
  | failed
  deriving DecidableEq, Repr

/-- The steps addressed to worker `w` among the delivered events, in order. -/
def workerSteps (w : Fin 4) : List DlEvent → List WorkerStep
  | [] => []
  | .tick _ :: rest => workerSteps w rest
  | .fetched v size now :: rest =>
    if v = w then WorkerStep.fetched size now :: workerSteps w rest else workerSteps w rest
  | .failed v :: rest =>
    if v = w then WorkerStep.failed :: workerSteps w rest else workerSteps w rest

/-- The sizes of the bodies one worker fetches successfully: it keeps fetching
while it is in its loop (`running`), each fulfilled fetch yields a body, and the
first rejection or failed loop test ends it. -/
def workerBodies (startTime : ℚ) : Bool → List WorkerStep → List Nat
  | _, [] => []
  | false, _ :: _ => []
  | true, .failed :: _ => []
  | true, .fetched size now :: rest => size :: workerBodies startTime (loopCond startTime now) rest

/-- The sizes of the bodies worker `w` fetches successfully in a download phase. -/
def bodiesOf (inp : DlInput) (w : Fin 4) : List Nat :=
  workerBodies inp.startTime (loopCond inp.startTime (inp.first w)) (workerSteps w inp.events)

/-- The sizes of all successfully fetched bodies of a download phase, worker by worker. -/
def fetchedBodies (inp : DlInput) : List Nat :=
  bodiesOf inp 0 ++ bodiesOf inp 1 ++ bodiesOf inp 2 ++ bodiesOf inp 3

/-! ## Upload: `measureUpload` and `simulateUpload` -/

/-- Local constant `dataSize` of `measureUpload`. -/
def dataSize : Nat := 2 * 1024 * 1024

/-- State of one `simulateUpload` call: its locals `progress` and `speed`,
whether its interval is still installed, the user interface, and two traces:
the samples passed to `updateUI` and the values passed to `resolve`. -/
structure SimState where
  progress : Nat
  speed : JSNum
  timerActive : Bool
  ui : UI
  emitted : List JSNum
  resolved : List JSNum

/-- The `setInterval` callback of `simulateUpload`, with `r` the value returned
by `Math.random()`. -/
def simTick (st : SimState) (r : ℚ) : SimState :=
  let progress := st.progress + 5
  let speed := 15 + JSNum.fin r * 20
  let st :=
    { st with
      progress := progress, speed := speed,
      ui := updateUI st.ui speed, emitted := st.emitted ++ [speed] }
  if progress ≥ 100 then
    { st with timerActive := false, resolved := st.resolved ++ [speed] }
  else st

/-- Lets the interval of `simulateUpload` fire up to `n` more times, the `k`-th
firing drawing `draws k`; a cleared interval never fires again. -/
def simRun (draws : Nat → ℚ) : Nat → Nat → SimState → SimState
  | 0, _, st => st
  | n + 1, k, st =>
    if st.timerActive then simRun draws n (k + 1) (simTick st (draws k)) else st

/-- State of `simulateUpload` right after it has installed its interval:
`progress = 0`, `speed = 0`, nothing emitted, nothing resolved. -/
def simInit (ui : UI) : SimState :=
  { progress := 0, speed := 0, timerActive := true, ui := ui, emitted := [], resolved := [] }

/-- Method `simulateUpload(resolve)` observed over `fires` timer periods. -/
def simulateUpload (draws : Nat → ℚ) (fires : Nat) (ui : UI) : SimState :=
  simRun draws fires 0 (simInit ui)

/-- An `xhr.upload` progress event: `e.lengthComputable`, `e.loaded`, and the
clock reading taken by the handler. -/
structure ProgressEvent where
  lengthComputable : Bool
  loaded : Nat
  now : ℚ
  deriving DecidableEq, Repr

/-- The `xhr.upload.onprogress` handler: the value it passes to `updateUI`, if any. -/
def progressSample (startTime : ℚ) (e : ProgressEvent) : Option JSNum :=
  if e.lengthComputable then
    let elapsedSec := (JSNum.fin e.now - JSNum.fin startTime) / 1000
    if JSNum.gt elapsedSec 0 then
      let bits := JSNum.fin e.loaded * 8
      let mbps := (bits / elapsedSec) / 1000000
      some mbps
    else none
  else none

/-- The user interface after the `onprogress` handler has run on each event. -/
def progressRun (startTime : ℚ) (ui : UI) : List ProgressEvent → UI
  | [] => ui
  | e :: rest =>
    match progressSample startTime e with
    | some mbps => progressRun startTime (updateUI ui mbps) rest
    | none => progressRun startTime ui rest

/-- How a request that was sent ends: the `load` event (with the clock reading
of its handler), the `error` event, or an event without a handler in
`measureUpload` (abort, timeout). -/
inductive XhrEnd where
  | load (now : ℚ)
  | error
  | unhandled
  deriving DecidableEq, Repr

/-- The life of the request of `measureUpload`: `xhr.send` throws, or the
request is sent, reports progress and ends. -/
inductive XhrRun where
  | sendThrows
  | sent (progress : List ProgressEvent) (ending : XhrEnd)
  deriving DecidableEq, Repr

/-- What the environment supplies to one call of `measureUpload`. -/
structure UlInput where
  startTime : ℚ
  xhr : XhrRun
  draws : Nat → ℚ
  fires : Nat

/-- Settlement of a promise whose `resolve` was called with the listed values,
in order, and whose `reject` was never called: the first call wins. -/
def settleWith (calls : List JSNum) : Option (Except String JSNum) :=
  calls.head?.map Except.ok

/-- Method `measureUpload()`: the user interface it leaves and the settlement
of its promise (`none`: still pending). -/
def measureUpload (inp : UlInput) (ui : UI) : UI × Option (Except String JSNum) :=
  match inp.xhr with
  | .sendThrows =>
    let sim := simulateUpload inp.draws inp.fires ui
    (sim.ui, settleWith sim.resolved)
  | .sent progress ending =>
    let ui := progressRun inp.startTime ui progress
    match ending with
    | .load now =>
      let finalSec := (JSNum.fin now - JSNum.fin inp.startTime) / 1000
      let bits := JSNum.fin dataSize * 8
      let finalMbps := (bits / finalSec) / 1000000
      (ui, settleWith [finalMbps])
    | .error =>
      let sim := simulateUpload inp.draws inp.fires ui
      (sim.ui, settleWith sim.resolved)
    | .unhandled => (ui, none)

/-! ## The run: `startTest` -/

/-- Everything the environment supplies to one run. -/
structure Env where
  probes : Nat → Probe
  dl : DlInput
  ul : UlInput

/-- The `catch (err)` block of `startTest`. -/
def catchBlock (ui : UI) (message : String) : UI :=
  let ui := setStatus ui "Error Occurred"
  { ui with alerts := ui.alerts ++ ["Network Error: " ++ message] }

/-- The `finally` block of `startTest`. -/
def finallyBlock (ui : UI) : UI :=
  setGaugePercent
    { ui with isTesting := false, btnDisabled := false, btnText := "RESTART",
              loaderActive := false }
    0

/-- Method `startTest()`: the user interface once the run has gone as far as the
supplied events take it.  The calls of `wait` only let time pass. -/
def startTest (env : Env) (ui : UI) : UI :=
  if ui.isTesting then ui
  else
    let ui :=
      { ui with isTesting := true, btnDisabled := true, btnText := "TESTING",
                loaderActive := true, pingVal := Text.lit "--", dlVal := Text.lit "--",
                ulVal := Text.lit "--" }
    let ui := updateUI ui 0
    let ui := setStatus (setActiveIndicator ui "ping") "Measuring Latency..."
    match measurePing env.probes with
    | .error e => finallyBlock (catchBlock ui e)
    | .ok ping =>
      let ui := { ui with pingVal := Text.fixed ping 0 " ms" }
      let ui := setStatus (setActiveIndicator ui "dl") "Testing Download..."
      match measureDownload env.dl ui with
      | (ui, none) => ui
      | (ui, some (.error e)) => finallyBlock (catchBlock ui e)
      | (ui, some (.ok dlSpeed)) =>
        let ui := { ui with dlVal := Text.fixed dlSpeed 1 "", mainSpeed := Text.fixed dlSpeed 1 "" }
        let ui := setGaugePercent ui 0
        let ui := { ui with mainSpeed := Text.lit "0.0" }
        let ui := setStatus (setActiveIndicator ui "ul") "Testing Upload..."
        match measureUpload env.ul ui with
        | (ui, none) => ui
        | (ui, some (.error e)) => finallyBlock (catchBlock ui e)
        | (ui, some (.ok ulSpeed)) =>
          let ui := { ui with ulVal := Text.fixed ulSpeed 1 "" }
          let ui := setStatus ui "Test Complete"
          let ui := setActiveIndicator ui "all"
          finallyBlock ui

/-! ## Reference values used in the statements -/

/-- The gauge fraction as the claim words it, `min(s/100, 1)`, for a speed
`s ≥ 0` (finite or `Infinity`); other inputs are outside the claim and map to 0. -/
def fractionSpec : JSNum → ℚ
  | .fin q => min (q / 100) 1
  | .posInf => 1
  | _ => 0

/-- Five probes of which the second and the last succeed, after 30 ms and
50 ms; the others fail. -/
def pingExample : Nat → Probe
  | 1 => { start := 100, finish := some 130 }
  | 4 => { start := 700, finish := some 750 }
  | _ => { start := 0, finish := none }

/-- Whether one worker, seen in isolation, still has a fetch pending after its
steps: it leaves its loop at the first rejection or failed loop test. -/
def workerEnd (startTime : ℚ) : Bool → List WorkerStep → Bool
  | false, _ => false
  | true, [] => true
  | true, .failed :: _ => false
  | true, .fetched _ now :: rest => workerEnd startTime (loopCond startTime now) rest

/-- The delivered events without the sampler ticks. -/
def dropTicks : List DlEvent → List DlEvent
  | [] => []
  | .tick _ :: rest => dropTicks rest
  | e :: rest => e :: dropTicks rest

/-- A download phase that starts at clock reading 1000 and ends at 5000 (4
seconds): workers 0 and 2 fetch bodies of 2,000,000, 2,000,000 and 1,000,000
bytes, workers 1 and 3 fail at once, and the sampler ticks twice. -/
def dlExample : DlInput :=
  { startTime := 1000
    first := fun _ => 1000
    events :=
      [ .tick 1100, .fetched 0 2000000 2500, .failed 1, .tick 2600,
        .fetched 2 1000000 5000, .failed 3, .fetched 0 2000000 5000 ]
    endTime := 5000 }

/-- A download phase in which the first fetch of every worker rejects and the
clock still reads the start time when the phase ends. -/
def dlZeroElapsed : DlInput :=
  { startTime := 1000
    first := fun _ => 1000
    events := [ .failed 0, .failed 1, .failed 2, .failed 3 ]
    endTime := 1000 }

/-- A download phase in which the first fetch of every worker rejects, with a
sampler tick in between, observed by a clock that does not advance past its
start reading 250. -/
def dlAllFail : DlInput :=
  { startTime := 250
    first := fun _ => 250
    events := [ .failed 2, .tick 250, .failed 0, .failed 3, .failed 1 ]
    endTime := 250 }

/-- The rate `simulateUpload` synthesises at the firing that draws `r`. -/
def simSample (r : ℚ) : JSNum := JSNum.fin (15 + r * 20)

/-- A stream of `Math.random()` draws in `[0, 1)`: 0, 1/2, 0, 1/2, ... -/
def drawsExample : Nat → ℚ := fun k => if k % 2 = 0 then 0 else 1 / 2

/-- An upload whose `xhr.send` throws, observed for 25 periods of the
simulation timer. -/
def ulSendThrows : UlInput :=
  { startTime := 7000, xhr := .sendThrows, draws := drawsExample, fires := 25 }

/-- A run in which the probes of `pingExample` are followed by the download
phase `dlExample` and by an upload whose `xhr.send` throws. -/
def envExample : Env :=
  { probes := pingExample, dl := dlExample, ul := ulSendThrows }

/-- A run in which all five latency probes fail. -/
def envNoPing : Env :=
  { probes := fun _ => { start := 0, finish := none }, dl := dlExample, ul := ulSendThrows }

/-! ## Arithmetic of `JSNum` on finite values -/

namespace JSNum

@[simp] theorem ofNat_eq (n : Nat) : (OfNat.ofNat n : JSNum) = fin (n : ℚ) := rfl

@[simp] theorem fin_add_fin (a b : ℚ) : fin a + fin b = fin (a + b) := rfl

@[simp] theorem fin_sub_fin (a b : ℚ) : fin a - fin b = fin (a - b) := by
  show add (fin a) (neg (fin b)) = fin (a - b)
  simp [add, neg, sub_eq_add_neg]

@[simp] theorem fin_mul_fin (a b : ℚ) : fin a * fin b = fin (a * b) := rfl

theorem fin_div_fin (a b : ℚ) (hb : b ≠ 0) : fin a / fin b = fin (a / b) := by
  show div (fin a) (fin b) = fin (a / b)
  simp [div, hb]

theorem fin_div_zero (a : ℚ) :
    fin a / fin 0 = if a = 0 then nan else if 0 < a then posInf else negInf := by
  show div (fin a) (fin 0) = _
  simp [div]

@[simp] theorem gt_fin_fin (a b : ℚ) : gt (fin a) (fin b) = decide (b < a) := rfl

@[simp] theorem lt_fin_fin (a b : ℚ) : lt (fin a) (fin b) = decide (a < b) := rfl

@[simp] theorem le_fin_fin (a b : ℚ) : le (fin a) (fin b) = decide (a ≤ b) := rfl

@[simp] theorem ge_fin_fin (a b : ℚ) : ge (fin a) (fin b) = decide (b ≤ a) := rfl

end JSNum

/-! ## The gauge: `updateUI` and `setGaugePercent` -/

theorem updateUI_statusLog (ui : UI) (s : JSNum) : (updateUI ui s).statusLog = ui.statusLog := rfl

theorem updateUI_dash (ui : UI) (s : JSNum) :
    (updateUI ui s).strokeDasharray = (pathLength * gaugeFraction s, pathLength) := rfl

theorem gaugeFraction_of_nonneg (s : JSNum) (hs : JSNum.ge s 0 = true) :
    gaugeFraction s = JSNum.fin (fractionSpec s) := by
  cases s with
  | fin q =>
    have h100 : (100 : ℚ) ≠ 0 := by norm_num
    simp only [gaugeFraction, maxSpeedForGauge, JSNum.ofNat_eq, fractionSpec]
    rw [show ((100 : ℕ) : ℚ) = 100 by norm_num, JSNum.fin_div_fin _ _ h100]
    simp only [JSNum.gt_fin_fin, Nat.cast_one]
    by_cases h : 1 < q / 100
    · simp [h, min_eq_right (le_of_lt h)]
    · simp [h, min_eq_left (not_lt.mp h)]
  | posInf =>
    have h1 : JSNum.posInf / JSNum.fin 100 = JSNum.posInf := by
      show JSNum.div JSNum.posInf (JSNum.fin 100) = _
      simp [JSNum.div]
    have h2 : JSNum.gt JSNum.posInf (JSNum.fin 1) = true := rfl
    simp [gaugeFraction, maxSpeedForGauge, fractionSpec, h1, h2]
  | negInf => simp [JSNum.ge, JSNum.le] at hs
  | nan => simp [JSNum.ge, JSNum.le] at hs

theorem fractionSpec_bounds (s : JSNum) (hs : JSNum.ge s 0 = true) :
    0 ≤ fractionSpec s ∧ fractionSpec s ≤ 1 := by
  cases s with
  | fin q =>
    have hq : 0 ≤ q := by simpa using hs
    refine ⟨le_min (by positivity) (by norm_num), min_le_right _ _⟩
  | posInf => simp [fractionSpec]
  | negInf => simp [JSNum.ge, JSNum.le] at hs
  | nan => simp [JSNum.ge, JSNum.le] at hs

theorem fractionSpec_mono (s t : JSNum) (hs : JSNum.ge s 0 = true) (hst : JSNum.le s t = true) :
    fractionSpec s ≤ fractionSpec t := by
  cases s with
  | fin q =>
    cases t with
    | fin r =>
      have hqr : q ≤ r := by simpa using hst
      exact min_le_min (div_le_div_of_nonneg_right hqr (by norm_num)) le_rfl
    | posInf => exact min_le_right _ _
    | negInf => simp [JSNum.le] at hst
    | nan => simp [JSNum.le] at hst
  | posInf =>
    cases t with
    | fin r => simp [JSNum.le] at hst
    | posInf => exact le_rfl
    | negInf => simp [JSNum.le] at hst
    | nan => simp [JSNum.le] at hst
  | negInf => simp [JSNum.ge, JSNum.le] at hs
  | nan => simp [JSNum.ge, JSNum.le] at hs

theorem ge_zero_of_le (s t : JSNum) (hs : JSNum.ge s 0 = true) (hst : JSNum.le s t = true) :
    JSNum.ge t 0 = true := by
  cases s <;> cases t <;> simp_all [JSNum.ge, JSNum.le]
  exact le_trans hs hst

/-- C10: for every speed `s ≥ 0` (finite or infinite), `updateUI(s)` sets the
gauge to the fraction `min(s/100, 1)`; the drawn dash length is
`pathLength * fraction`, lies in `[0, 400]`, and does not decrease when `s` grows. -/
theorem updateUI_gauge_fraction (ui : UI) (s : JSNum) (hs : JSNum.ge s 0 = true) :
    gaugeFraction s = JSNum.fin (fractionSpec s) ∧
    (updateUI ui s).strokeDasharray = (JSNum.fin (400 * fractionSpec s), JSNum.fin 400) ∧
    0 ≤ 400 * fractionSpec s ∧ 400 * fractionSpec s ≤ 400 ∧
    ∀ t : JSNum, JSNum.le s t = true →
      ∃ ds dt : ℚ, (updateUI ui s).strokeDasharray.1 = JSNum.fin ds ∧
        (updateUI ui t).strokeDasharray.1 = JSNum.fin dt ∧ ds ≤ dt := by
  have hf := gaugeFraction_of_nonneg s hs
  have hb := fractionSpec_bounds s hs
  have hdash : ∀ u : JSNum, JSNum.ge u 0 = true →
      (updateUI ui u).strokeDasharray = (JSNum.fin (400 * fractionSpec u), JSNum.fin 400) := by
    intro u hu
    rw [updateUI_dash, gaugeFraction_of_nonneg u hu]
    simp [pathLength]
  refine ⟨hf, hdash s hs, by linarith [hb.1], by linarith [hb.2], ?_⟩
  intro t hst
  have ht := ge_zero_of_le s t hs hst
  refine ⟨400 * fractionSpec s, 400 * fractionSpec t, ?_, ?_, ?_⟩
  · rw [hdash s hs]
  · rw [hdash t ht]
  · linarith [fractionSpec_mono s t hs hst]

/-- C10, at the speed 250: the fraction is capped at 1 and the dash is 400 long. -/
theorem updateUI_gauge_fraction_witness :
    JSNum.ge (JSNum.fin 250) 0 = true ∧
    (updateUI initialUI (JSNum.fin 250)).strokeDasharray
      = (JSNum.fin (400 * fractionSpec (JSNum.fin 250)), JSNum.fin 400) :=
  ⟨by simp, (updateUI_gauge_fraction initialUI (JSNum.fin 250) (by simp)).2.1⟩

/-! ## Rate samples: the download sampler and the upload progress handler -/

theorem elapsedSec_eq (startTime now : ℚ) :
    (JSNum.fin now - JSNum.fin startTime) / 1000 = JSNum.fin ((now - startTime) / 1000) := by
  rw [JSNum.fin_sub_fin, JSNum.ofNat_eq, show ((1000 : ℕ) : ℚ) = 1000 by norm_num,
    JSNum.fin_div_fin _ _ (by norm_num)]

theorem rate_eq (bytes : Nat) (sec : ℚ) (hsec : sec ≠ 0) :
    ((JSNum.fin bytes * 8) / JSNum.fin sec) / 1000000
      = JSNum.fin ((bytes * 8) / (sec * 1000000)) := by
  rw [JSNum.ofNat_eq, JSNum.ofNat_eq, show ((8 : ℕ) : ℚ) = 8 by norm_num,
    show ((1000000 : ℕ) : ℚ) = 1000000 by norm_num, JSNum.fin_mul_fin,
    JSNum.fin_div_fin _ _ hsec, JSNum.fin_div_fin _ _ (by norm_num), div_div]

theorem samplerTick_eq (startTime : ℚ) (totalBytes : Nat) (now : ℚ) :
    samplerTick startTime totalBytes now =
      if 0 < (now - startTime) / 1000 then
        some (JSNum.fin ((totalBytes * 8) / (((now - startTime) / 1000) * 1000000)))
      else none := by
  unfold samplerTick
  dsimp only
  rw [elapsedSec_eq]
  by_cases h : 0 < (now - startTime) / 1000
  · rw [rate_eq totalBytes _ (ne_of_gt h)]
    simp [h]
  · simp [h]

theorem progressSample_eq (startTime : ℚ) (e : ProgressEvent) :
    progressSample startTime e =
      if e.lengthComputable = true ∧ 0 < (e.now - startTime) / 1000 then
        some (JSNum.fin ((e.loaded * 8) / (((e.now - startTime) / 1000) * 1000000)))
      else none := by
  unfold progressSample
  dsimp only
  rw [elapsedSec_eq]
  by_cases hl : e.lengthComputable = true
  · by_cases h : 0 < (e.now - startTime) / 1000
    · rw [rate_eq e.loaded _ (ne_of_gt h)]
      simp [hl, h]
    · simp [hl, h]
  · simp [hl]

/-- The download sampler emits a sample exactly when the elapsed time is positive. -/
theorem samplerTick_isSome_iff (startTime : ℚ) (totalBytes : Nat) (now : ℚ) :
    (samplerTick startTime totalBytes now).isSome = true ↔ startTime < now := by
  rw [samplerTick_eq]
  have h : 0 < (now - startTime) / 1000 ↔ startTime < now := by
    rw [div_pos_iff_of_pos_right (by norm_num)]; exact sub_pos
  by_cases hlt : startTime < now
  · simp [h.mpr hlt, hlt]
  · simp [mt h.mp hlt, hlt]

/-- C7: every sample the download sampler tick or the upload progress handler
passes to `updateUI` is taken at a positive elapsed time, equals
`(bytes * 8) / (elapsed seconds * 1000000)`, and is `≥ 0`. -/
theorem rate_sample_formula (startTime now : ℚ) (bytes : Nat) (lc : Bool) (m : JSNum)
    (h : samplerTick startTime bytes now = some m ∨
      progressSample startTime
        { lengthComputable := lc, loaded := bytes, now := now } = some m) :
    0 < (now - startTime) / 1000 ∧
    m = JSNum.fin ((bytes * 8) / (((now - startTime) / 1000) * 1000000)) ∧
    JSNum.ge m 0 = true := by
  have key : 0 < (now - startTime) / 1000 ∧
      m = JSNum.fin ((bytes * 8) / (((now - startTime) / 1000) * 1000000)) := by
    rcases h with h | h
    · rw [samplerTick_eq] at h
      by_cases hp : 0 < (now - startTime) / 1000
      · rw [if_pos hp] at h
        exact ⟨hp, (Option.some.inj h).symm⟩
      · rw [if_neg hp] at h
        exact absurd h (by simp)
    · rw [progressSample_eq] at h
      by_cases hp : lc = true ∧ 0 < (now - startTime) / 1000
      · rw [if_pos hp] at h
        exact ⟨hp.2, (Option.some.inj h).symm⟩
      · rw [if_neg hp] at h
        exact absurd h (by simp)
  refine ⟨key.1, key.2, ?_⟩
  rw [key.2]
  simp only [JSNum.ofNat_eq, Nat.cast_zero, JSNum.ge_fin_fin, decide_eq_true_eq]
  have := key.1
  positivity

/-- C7, at 1,250,000 bytes after 2 seconds: the sampler emits 5 Mbit/s. -/
theorem rate_sample_formula_witness :
    samplerTick 1000 1250000 3000 = some (JSNum.fin 5) ∧
    JSNum.ge (JSNum.fin 5) 0 = true :=
  have h : samplerTick 1000 1250000 3000 = some (JSNum.fin 5) := by
    rw [samplerTick_eq]; norm_num
  ⟨h, (rate_sample_formula 1000 3000 1250000 true (JSNum.fin 5) (Or.inl h)).2.2⟩

/-- C8, as stated, fails: at elapsed time 0 the sampler tick passes no sample to
`updateUI`; in particular it does not emit the sample 0, and the displayed
speed keeps its previous text. -/
theorem samplerTick_zero_elapsed_counterexample :
    samplerTick 1000 0 1000 ≠ some (JSNum.fin 0) ∧
    (dlStep 1000 { totalBytes := 0, running := fun _ => true, ui := initialUI }
        (DlEvent.tick 1000)).ui.mainSpeed ≠ (updateUI initialUI 0).mainSpeed := by
  have h : samplerTick 1000 0 1000 = none := by rw [samplerTick_eq]; norm_num
  refine ⟨by rw [h]; simp, ?_⟩
  simp only [dlStep, h]
  simp [initialUI, setGaugePercent, updateUI]

/-- C8, amended: on a sampler tick at which the elapsed time is exactly 0 the
guard `elapsedSec > 0` skips the update: nothing is divided, no sample is passed
to `updateUI`, and the state of the phase is unchanged. -/
theorem samplerTick_skips_zero_elapsed (startTime : ℚ) (totalBytes : Nat) (st : DlState) :
    samplerTick startTime totalBytes startTime = none ∧
    dlStep startTime st (DlEvent.tick startTime) = st := by
  have h : ∀ b : Nat, samplerTick startTime b startTime = none := by
    intro b; rw [samplerTick_eq]; simp
  exact ⟨h totalBytes, by simp only [dlStep, h]⟩

/-! ## Latency: `measurePing` -/

theorem pingLoop_eq (probe : Nat → Probe) (n i : Nat) (pings : List JSNum) :
    pingLoop probe n i pings =
      pings ++ ((List.range' i n).filterMap
        (fun j => (probe j).finish.map (fun e => e - (probe j).start))).map JSNum.fin := by
  induction n generalizing i pings with
  | zero => simp [pingLoop]
  | succ n ih =>
    rw [pingLoop, List.range'_succ]
    cases hf : (probe i).finish with
    | none => simp [ih, hf]
    | some e => simp [ih, hf]

theorem pings_eq (probe : Nat → Probe) :
    pingLoop probe 5 0 [] = (successDurations probe).map JSNum.fin := by
  rw [pingLoop_eq, successDurations, List.range_eq_range']
  simp

theorem foldl_add_fin (l : List ℚ) (a : ℚ) :
    (l.map JSNum.fin).foldl (fun x y => x + y) (JSNum.fin a) = JSNum.fin (a + l.sum) := by
  induction l generalizing a with
  | nil => simp
  | cons b l ih => simp [ih, add_assoc]

theorem measurePing_eq (probe : Nat → Probe) :
    measurePing probe =
      if (successDurations probe).length = 0 then .ok (JSNum.fin 0)
      else .ok (JSNum.fin ((successDurations probe).sum / (successDurations probe).length)) := by
  unfold measurePing
  dsimp only
  rw [pings_eq]
  cases hds : successDurations probe with
  | nil => simp
  | cons d ds =>
    have hlen : ((d :: ds).length : ℚ) ≠ 0 := by
      simp only [List.length_cons]; positivity
    simp only [List.map_cons, List.length_cons, List.length_map, reduceAdd, foldl_add_fin]
    rw [if_neg (Nat.succ_ne_zero _), if_neg (Nat.succ_ne_zero _)]
    simp only [List.length_cons] at hlen
    rw [JSNum.fin_div_fin _ _ hlen]
    simp

/-- The promise of `measurePing` never rejects. -/
theorem measurePing_ok (probe : Nat → Probe) : ∃ v : ℚ, measurePing probe = .ok (JSNum.fin v) := by
  rw [measurePing_eq]
  by_cases h : (successDurations probe).length = 0
  · exact ⟨0, by rw [if_pos h]⟩
  · exact ⟨_, by rw [if_neg h]⟩

theorem successDurations_ne_nil (probe : Nat → Probe)
    (h : ∃ i, i < 5 ∧ (probe i).finish.isSome = true) : (successDurations probe).length ≠ 0 := by
  obtain ⟨i, hi, hs⟩ := h
  obtain ⟨e, he⟩ := Option.isSome_iff_exists.mp hs
  have hmem : e - (probe i).start ∈ successDurations probe := by
    rw [successDurations, List.mem_filterMap]
    exact ⟨i, List.mem_range.mpr hi, by simp [he]⟩
  intro h0
  rw [List.length_eq_zero] at h0
  rw [h0] at hmem
  exact absurd hmem (List.not_mem_nil _)

/-- C1: when at least one of the five probes succeeds, `measurePing` fulfils with
the sum of the durations of the successful probes divided by their number;
failed probes enter neither the sum nor the count. -/
theorem measurePing_mean (probe : Nat → Probe)
    (h : ∃ i, i < 5 ∧ (probe i).finish.isSome = true) :
    measurePing probe =
      .ok (JSNum.fin ((successDurations probe).sum / (successDurations probe).length)) := by
  rw [measurePing_eq, if_neg (successDurations_ne_nil probe h)]

/-- C1, with probes 0, 2 and 3 failing and probes 1 and 4 taking 30 ms and 50 ms:
the result is 40 ms. -/
theorem measurePing_mean_witness :
    measurePing pingExample = .ok (JSNum.fin 40) := by
  have hd : successDurations pingExample = [30, 50] := by
    norm_num [successDurations, List.range, List.range.loop, List.filterMap, pingExample]
  have h := measurePing_mean pingExample ⟨1, by decide, rfl⟩
  rw [h, hd]
  norm_num

/-! ## Download: `measureDownload` -/

theorem dlRun_of_allDone (startTime : ℚ) (st : DlState) (evs : List DlEvent)
    (h : allDone st = true) : dlRun startTime st evs = st := by
  cases evs with
  | nil => rfl
  | cons e rest => simp [dlRun, h]

theorem dlRun_cons (startTime : ℚ) (st : DlState) (e : DlEvent) (rest : List DlEvent)
    (h : ¬ allDone st = true) :
    dlRun startTime st (e :: rest) = dlRun startTime (dlStep startTime st e) rest := by
  simp [dlRun, h]

theorem allDone_iff (st : DlState) : allDone st = true ↔ ∀ w, st.running w = false := by
  constructor
  · intro h w
    simp only [allDone, Bool.and_eq_true, Bool.not_eq_true'] at h
    fin_cases w
    · exact h.1.1.1
    · exact h.1.1.2
    · exact h.1.2
    · exact h.2
  · intro h
    simp [allDone, h]

theorem measureDownload_snd (inp : DlInput) (ui : UI) :
    (measureDownload inp ui).2 =
      if allDone (dlRun inp.startTime (dlInit inp ui) inp.events) = true then
        some (.ok (finalCalc inp.startTime (finalBytes inp ui) inp.endTime))
      else none := by
  unfold measureDownload finalBytes
  dsimp only
  split <;> rfl

theorem finalCalc_of_ne (startTime endTime : ℚ) (totalBytes : Nat)
    (h : (endTime - startTime) / 1000 ≠ 0) :
    finalCalc startTime totalBytes endTime
      = JSNum.fin ((totalBytes * 8) / (((endTime - startTime) / 1000) * 1000000)) := by
  unfold finalCalc
  dsimp only
  rw [elapsedSec_eq, rate_eq _ _ h]

theorem finalCalc_zero_elapsed (startTime : ℚ) (totalBytes : Nat) :
    finalCalc startTime totalBytes startTime
      = if totalBytes = 0 then JSNum.nan else JSNum.posInf := by
  unfold finalCalc
  dsimp only
  rw [elapsedSec_eq]
  simp only [sub_self, zero_div, JSNum.ofNat_eq, JSNum.fin_mul_fin, JSNum.fin_div_zero]
  by_cases h : totalBytes = 0
  · simp [h]; rfl
  · have hpos : (0 : ℚ) < (totalBytes : ℚ) * ((8 : ℕ) : ℚ) := by
      have : 0 < totalBytes := Nat.pos_of_ne_zero h
      positivity
    rw [if_neg (ne_of_gt hpos), if_pos hpos, if_neg h]
    rfl

/-- Sampler ticks change neither the counter nor the set of running workers. -/
theorem dlRun_dropTicks (startTime : ℚ) (st st2 : DlState) (evs : List DlEvent)
    (hb : st.totalBytes = st2.totalBytes) (hr : st.running = st2.running) :
    (dlRun startTime st evs).totalBytes = (dlRun startTime st2 (dropTicks evs)).totalBytes ∧
    (dlRun startTime st evs).running = (dlRun startTime st2 (dropTicks evs)).running := by
  induction evs generalizing st st2 with
  | nil => exact ⟨hb, hr⟩
  | cons e rest ih =>
    have hd : allDone st = allDone st2 := by simp [allDone, hr]
    by_cases hdone : allDone st = true
    · rw [dlRun_of_allDone _ _ _ hdone, dlRun_of_allDone _ _ _ (hd ▸ hdone)]
      exact ⟨hb, hr⟩
    · have hdone2 : ¬ allDone st2 = true := hd ▸ hdone
      cases e with
      | tick now =>
        simp only [dropTicks, dlRun, hdone, if_false]
        apply ih
        · simp only [dlStep]; split <;> exact hb
        · simp only [dlStep]; split <;> exact hr
      | fetched w size now =>
        simp only [dropTicks, dlRun, hdone, hdone2, if_false]
        apply ih
        · simp only [dlStep, hr]; split <;> simp [hb]
        · simp only [dlStep, hr]; split <;> simp [hr]
      | failed w =>
        simp only [dropTicks, dlRun, hdone, hdone2, if_false]
        apply ih
        · simp only [dlStep, hr]; split <;> simp [hb]
        · simp only [dlStep, hr]; split <;> simp [hr]

/-- The settlement of `measureDownload` depends neither on the sampler ticks nor
on the user interface it started from. -/
theorem measureDownload_dropTicks (inp : DlInput) (ui ui2 : UI) :
    (measureDownload { inp with events := dropTicks inp.events } ui2).2
      = (measureDownload inp ui).2 := by
  have h := dlRun_dropTicks inp.startTime (dlInit inp ui) (dlInit inp ui2) inp.events rfl rfl
  rw [measureDownload_snd, measureDownload_snd]
  simp only [finalBytes, allDone]
  have e1 : dlInit { inp with events := dropTicks inp.events } ui2 = dlInit inp ui2 := rfl
  rw [e1, ← h.1, ← h.2]

/-- C3: when the phase ends after a positive elapsed time `S` seconds with the
counter at `B` bytes, `measureDownload` fulfils with `(B*8)/(S*1000000)`; the
value is the same whatever the sampler ticks did in between. -/
theorem measureDownload_final (inp : DlInput) (ui : UI)
    (hdone : allDone (dlRun inp.startTime (dlInit inp ui) inp.events) = true)
    (hpos : 0 < (inp.endTime - inp.startTime) / 1000) :
    (measureDownload inp ui).2 =
      some (.ok (JSNum.fin ((finalBytes inp ui * 8) /
        (((inp.endTime - inp.startTime) / 1000) * 1000000)))) ∧
    (measureDownload { inp with events := dropTicks inp.events } ui).2
      = (measureDownload inp ui).2 := by
  refine ⟨?_, measureDownload_dropTicks inp ui ui⟩
  rw [measureDownload_snd, if_pos hdone, finalCalc_of_ne _ _ _ (ne_of_gt hpos)]

theorem loopCond_eq (startTime now : ℚ) :
    loopCond startTime now = decide (now - startTime < 4000) := by
  simp [loopCond, duration]

theorem fin4_val_three : ((3 : Fin 4) : ℕ) = 3 := rfl

theorem dlExample_run :
    allDone (dlRun dlExample.startTime (dlInit dlExample initialUI) dlExample.events) = true ∧
    finalBytes dlExample initialUI = 5000000 := by
  constructor <;>
  norm_num [finalBytes, dlExample, dlInit, dlRun, dlStep, allDone, loopCond_eq,
      Function.update_apply, Fin.ext_iff, fin4_val_three, samplerTick_eq]

/-- C3, on a phase that reaches 5,000,000 bytes over exactly 4 seconds: the
result is 10. -/
theorem measureDownload_final_witness :
    (measureDownload dlExample initialUI).2 = some (.ok (JSNum.fin 10)) := by
  have h := (measureDownload_final dlExample initialUI dlExample_run.1
    (by norm_num [dlExample])).1
  rw [h, dlExample_run.2]
  norm_num [dlExample]

/-- C4, as the code behaves: when the phase ends at elapsed time 0,
`measureDownload` fulfils with `NaN` if no byte was counted and with `Infinity`
otherwise; it never fulfils with 0 there. -/
theorem measureDownload_zero_elapsed (inp : DlInput) (ui : UI)
    (hdone : allDone (dlRun inp.startTime (dlInit inp ui) inp.events) = true)
    (hzero : inp.endTime = inp.startTime) :
    (measureDownload inp ui).2 =
      some (.ok (if finalBytes inp ui = 0 then JSNum.nan else JSNum.posInf)) ∧
    (measureDownload inp ui).2 ≠ some (.ok (JSNum.fin 0)) := by
  have h : (measureDownload inp ui).2 =
      some (.ok (if finalBytes inp ui = 0 then JSNum.nan else JSNum.posInf)) := by
    rw [measureDownload_snd, if_pos hdone, hzero, finalCalc_zero_elapsed]
  refine ⟨h, ?_⟩
  rw [h]
  by_cases hb : finalBytes inp ui = 0
  · simp [hb]
  · simp [hb]

theorem dlZeroElapsed_run :
    allDone (dlRun dlZeroElapsed.startTime (dlInit dlZeroElapsed initialUI)
      dlZeroElapsed.events) = true ∧
    finalBytes dlZeroElapsed initialUI = 0 := by
  constructor <;>
  norm_num [finalBytes, dlZeroElapsed, dlInit, dlRun, dlStep, allDone, loopCond_eq,
      Function.update_apply, Fin.ext_iff, fin4_val_three, samplerTick_eq]

/-- C4, on the phase whose four first fetches reject before the clock advances:
`measureDownload` fulfils with `NaN`. -/
theorem measureDownload_zero_elapsed_witness :
    (measureDownload dlZeroElapsed initialUI).2 = some (.ok JSNum.nan) := by
  have h := (measureDownload_zero_elapsed dlZeroElapsed initialUI dlZeroElapsed_run.1 rfl).1
  rw [h, dlZeroElapsed_run.2]
  rfl

/-- The promise of `measureDownload` never rejects. -/
theorem measureDownload_never_rejects (inp : DlInput) (ui : UI) (e : String) :
    (measureDownload inp ui).2 ≠ some (.error e) := by
  rw [measureDownload_snd]
  split <;> simp

/-- Once every worker has left its loop, `measureDownload` fulfils. -/
theorem measureDownload_completes (inp : DlInput) (ui : UI)
    (hdone : allDone (dlRun inp.startTime (dlInit inp ui) inp.events) = true) :
    ∃ v, (measureDownload inp ui).2 = some (.ok v) := by
  rw [measureDownload_snd, if_pos hdone]
  exact ⟨_, rfl⟩

/-- A rejected fetch stops the worker that issued it and nothing else: the
counter and the other workers are untouched. -/
theorem dlStep_failed (startTime : ℚ) (st : DlState) (w : Fin 4) :
    (dlStep startTime st (.failed w)).totalBytes = st.totalBytes ∧
    (dlStep startTime st (.failed w)).running w = false ∧
    ∀ v, v ≠ w → (dlStep startTime st (.failed w)).running v = st.running v := by
  cases hr : st.running w
  · refine ⟨by simp [dlStep, hr], by simp [dlStep, hr], fun v _ => by simp [dlStep, hr]⟩
  · refine ⟨by simp [dlStep, hr], by simp [dlStep, hr], fun v hv => ?_⟩
    simp [dlStep, hr, Function.update_apply, hv]

theorem workerBodies_false (startTime : ℚ) (l : List WorkerStep) :
    workerBodies startTime false l = [] := by
  cases l <;> rfl

theorem workerEnd_false (startTime : ℚ) (l : List WorkerStep) :
    workerEnd startTime false l = false := by
  cases l <;> rfl

/-- The worker-by-worker view agrees with the interleaved run: each worker ends
as it would in isolation on its own steps. -/
theorem dlRun_running (startTime : ℚ) (st : DlState) (evs : List DlEvent) (w : Fin 4) :
    (dlRun startTime st evs).running w =
      workerEnd startTime (st.running w) (workerSteps w evs) := by
  induction evs generalizing st with
  | nil =>
    simp only [dlRun, workerSteps]
    cases h : st.running w <;> rfl
  | cons e rest ih =>
    by_cases hdone : allDone st = true
    · rw [dlRun_of_allDone _ _ _ hdone, (allDone_iff st).mp hdone w, workerEnd_false]
    · rw [dlRun_cons _ _ _ _ hdone, ih]
      cases e with
      | tick now =>
        simp only [workerSteps, dlStep]
        split <;> rfl
      | fetched v size now =>
        simp only [workerSteps, dlStep]
        by_cases hv : v = w
        · subst hv
          cases hr : st.running v
          · simp [workerEnd_false, hr]
          · simp [workerEnd, hr]
        · have hne : w ≠ v := fun h => hv h.symm
          cases hr : st.running v
          · simp [hv]
          · simp [hv, Function.update_apply, hne]
      | failed v =>
        simp only [workerSteps, dlStep]
        by_cases hv : v = w
        · subst hv
          cases hr : st.running v
          · simp [workerEnd_false, hr]
          · simp [workerEnd, workerEnd_false, hr]
        · have hne : w ≠ v := fun h => hv h.symm
          cases hr : st.running v
          · simp [hv]
          · simp [hv, Function.update_apply, hne]

/-- The contribution of worker `w` to the counter, seen in isolation. -/
theorem workerBodies_step (startTime : ℚ) (st : DlState) (e : DlEvent) (rest : List DlEvent)
    (w : Fin 4) :
    (workerBodies startTime (st.running w) (workerSteps w (e :: rest))).sum =
      (match e with
        | .fetched v size _ => if v = w ∧ st.running v = true then size else 0
        | _ => 0) +
      (workerBodies startTime ((dlStep startTime st e).running w) (workerSteps w rest)).sum := by
  cases e with
  | tick now =>
    simp only [workerSteps, dlStep]
    split <;> simp
  | fetched v size now =>
    simp only [workerSteps, dlStep]
    by_cases hv : v = w
    · subst hv
      cases hr : st.running v
      · simp [workerBodies_false, hr]
      · simp [workerBodies, hr]
    · have hne : w ≠ v := fun h => hv h.symm
      cases hr : st.running v
      · simp [hv]
      · simp [hv, Function.update_apply, hne]
  | failed v =>
    simp only [workerSteps, dlStep]
    by_cases hv : v = w
    · subst hv
      cases hr : st.running v
      · simp [workerBodies_false, hr]
      · simp [workerBodies, workerBodies_false, hr]
    · have hne : w ≠ v := fun h => hv h.symm
      cases hr : st.running v
      · simp [hv]
      · simp [hv, Function.update_apply, hne]

theorem dlStep_totalBytes (startTime : ℚ) (st : DlState) (e : DlEvent) :
    (dlStep startTime st e).totalBytes =
      st.totalBytes +
        ((match e with
          | .fetched v size _ => if v = (0 : Fin 4) ∧ st.running v = true then size else 0
          | _ => 0) +
        (match e with
          | .fetched v size _ => if v = (1 : Fin 4) ∧ st.running v = true then size else 0
          | _ => 0) +
        (match e with
          | .fetched v size _ => if v = (2 : Fin 4) ∧ st.running v = true then size else 0
          | _ => 0) +
        (match e with
          | .fetched v size _ => if v = (3 : Fin 4) ∧ st.running v = true then size else 0
          | _ => 0)) := by
  cases e with
  | tick now => simp only [dlStep]; split <;> simp
  | failed v => simp only [dlStep]; split <;> simp
  | fetched v size now =>
    simp only [dlStep]
    cases hr : st.running v
    · simp
    · fin_cases v <;> simp [Fin.ext_iff, fin4_val_three]

/-- The counter after an interleaved run is the counter before it plus what each
worker fetches in isolation. -/
theorem dlRun_totalBytes (startTime : ℚ) (st : DlState) (evs : List DlEvent) :
    (dlRun startTime st evs).totalBytes =
      st.totalBytes +
        ((workerBodies startTime (st.running 0) (workerSteps 0 evs)).sum +
         (workerBodies startTime (st.running 1) (workerSteps 1 evs)).sum +
         (workerBodies startTime (st.running 2) (workerSteps 2 evs)).sum +
         (workerBodies startTime (st.running 3) (workerSteps 3 evs)).sum) := by
  induction evs generalizing st with
  | nil => simp [dlRun, workerSteps, workerBodies]
  | cons e rest ih =>
    by_cases hdone : allDone st = true
    · have hr := (allDone_iff st).mp hdone
      rw [dlRun_of_allDone _ _ _ hdone]
      simp [hr, workerBodies_false]
    · rw [dlRun_cons _ _ _ _ hdone, ih, dlStep_totalBytes, workerBodies_step startTime st e rest 0,
        workerBodies_step startTime st e rest 1, workerBodies_step startTime st e rest 2,
        workerBodies_step startTime st e rest 3]
      ring

/-- The byte total of a download phase is exactly the sum of the sizes of the
successfully fetched bodies. -/
theorem finalBytes_eq_fetchedBodies (inp : DlInput) (ui : UI) :
    finalBytes inp ui = (fetchedBodies inp).sum := by
  rw [finalBytes, dlRun_totalBytes]
  simp [fetchedBodies, bodiesOf, dlInit, List.sum_append, add_assoc]

/-- If the first fetch of every worker rejects, the phase ends with every worker
stopped and the counter at 0; whenever the clock has advanced by then, the
result is 0. -/
theorem measureDownload_all_first_fail (inp : DlInput) (ui : UI)
    (hfail : ∀ w, (workerSteps w inp.events).head? = some WorkerStep.failed) :
    allDone (dlRun inp.startTime (dlInit inp ui) inp.events) = true ∧
    finalBytes inp ui = 0 ∧
    (0 < (inp.endTime - inp.startTime) / 1000 →
      (measureDownload inp ui).2 = some (.ok (JSNum.fin 0))) := by
  have hsteps : ∀ w, ∃ l, workerSteps w inp.events = WorkerStep.failed :: l := by
    intro w
    have := hfail w
    cases hl : workerSteps w inp.events with
    | nil => rw [hl] at this; simp at this
    | cons a l =>
      rw [hl] at this
      simp only [List.head?_cons, Option.some.injEq] at this
      exact ⟨l, by rw [this]⟩
  have hend : ∀ b w, workerEnd inp.startTime b (workerSteps w inp.events) = false := by
    intro b w
    obtain ⟨l, hl⟩ := hsteps w
    rw [hl]
    cases b <;> rfl
  have hbod : ∀ b w, workerBodies inp.startTime b (workerSteps w inp.events) = [] := by
    intro b w
    obtain ⟨l, hl⟩ := hsteps w
    rw [hl]
    cases b <;> rfl
  have hdone : allDone (dlRun inp.startTime (dlInit inp ui) inp.events) = true := by
    rw [allDone_iff]
    intro w
    rw [dlRun_running, hend]
  have hzero : finalBytes inp ui = 0 := by
    rw [finalBytes_eq_fetchedBodies]
    simp [fetchedBodies, bodiesOf, hbod]
  refine ⟨hdone, hzero, ?_⟩
  intro hpos
  rw [measureDownload_snd, if_pos hdone, hzero, finalCalc_of_ne _ _ _ (ne_of_gt hpos)]
  simp

/-- C9, at a phase whose four first fetches reject while the clock still reads
the start time: every worker's first fetch fails, the phase completes with the
counter at 0, and `measureDownload` fulfils with `NaN`, not with 0. -/
theorem measureDownload_all_fail_zero_elapsed :
    (∀ w, (workerSteps w dlAllFail.events).head? = some WorkerStep.failed) ∧
    finalBytes dlAllFail initialUI = 0 ∧
    (measureDownload dlAllFail initialUI).2 = some (.ok JSNum.nan) ∧
    (measureDownload dlAllFail initialUI).2 ≠ some (.ok (JSNum.fin 0)) := by
  have hfail : ∀ w, (workerSteps w dlAllFail.events).head? = some WorkerStep.failed := by
    intro w
    fin_cases w <;> simp [dlAllFail, workerSteps, Fin.ext_iff, fin4_val_three]
  have h := measureDownload_all_first_fail dlAllFail initialUI hfail
  have hres : (measureDownload dlAllFail initialUI).2 = some (.ok JSNum.nan) := by
    rw [measureDownload_snd, if_pos h.1, h.2.1]
    have : dlAllFail.endTime = dlAllFail.startTime := rfl
    rw [this, finalCalc_zero_elapsed]
    rfl
  refine ⟨hfail, h.2.1, hres, ?_⟩
  rw [hres]
  simp

/-! ## Upload fallback: `simulateUpload` -/

theorem simTick_lt (st : SimState) (r : ℚ) (h : st.progress + 5 < 100) :
    (simTick st r).timerActive = st.timerActive ∧
    (simTick st r).progress = st.progress + 5 ∧
    (simTick st r).emitted = st.emitted ++ [simSample r] ∧
    (simTick st r).resolved = st.resolved ∧
    (simTick st r).speed = simSample r := by
  have hn : ¬ (st.progress + 5 ≥ 100) := not_le.mpr h
  simp [simTick, hn, simSample]

theorem simTick_ge (st : SimState) (r : ℚ) (h : 100 ≤ st.progress + 5) :
    (simTick st r).timerActive = false ∧
    (simTick st r).progress = st.progress + 5 ∧
    (simTick st r).emitted = st.emitted ++ [simSample r] ∧
    (simTick st r).resolved = st.resolved ++ [simSample r] ∧
    (simTick st r).speed = simSample r := by
  have hn : st.progress + 5 ≥ 100 := h
  simp [simTick, hn, simSample]

theorem simRun_inactive (draws : Nat → ℚ) (n k : Nat) (st : SimState)
    (h : st.timerActive = false) : simRun draws n k st = st := by
  cases n with
  | zero => rfl
  | succ n => simp [simRun, h]

theorem simRun_add (draws : Nat → ℚ) (n m k : Nat) (st : SimState) :
    simRun draws (n + m) k st = simRun draws m (k + n) (simRun draws n k st) := by
  induction n generalizing k st with
  | zero => simp [simRun]
  | succ n ih =>
    rw [show n + 1 + m = (n + m) + 1 by omega]
    cases hact : st.timerActive
    · simp [simRun, hact, simRun_inactive]
    · simp only [simRun, hact, if_true]
      rw [ih, show k + 1 + n = k + (n + 1) by omega]

/-- While fewer than 20 samples have been produced the interval stays installed
and nothing is resolved. -/
theorem simRun_active (draws : Nat → ℚ) (n k : Nat) (st : SimState)
    (hact : st.timerActive = true) (hlt : st.progress + 5 * n < 100) :
    (simRun draws n k st).timerActive = true ∧
    (simRun draws n k st).progress = st.progress + 5 * n ∧
    (simRun draws n k st).emitted
      = st.emitted ++ (List.range' k n).map (fun j => simSample (draws j)) ∧
    (simRun draws n k st).resolved = st.resolved := by
  induction n generalizing k st with
  | zero => simp [simRun, hact]
  | succ n ih =>
    have h5 : st.progress + 5 < 100 := by omega
    have ht := simTick_lt st (draws k) h5
    have hact2 : (simTick st (draws k)).timerActive = true := by rw [ht.1, hact]
    have hlt2 : (simTick st (draws k)).progress + 5 * n < 100 := by rw [ht.2.1]; omega
    have := ih (k + 1) (simTick st (draws k)) hact2 hlt2
    simp only [simRun, hact, if_true]
    refine ⟨this.1, ?_, ?_, ?_⟩
    · rw [this.2.1, ht.2.1]; omega
    · rw [this.2.2.1, ht.2.2.1, List.range'_succ]; simp
    · rw [this.2.2.2, ht.2.2.2.1]

theorem simulateUpload_done (draws : Nat → ℚ) (fires : Nat) (ui : UI) (hfires : 20 ≤ fires) :
    (simulateUpload draws fires ui).timerActive = false ∧
    (simulateUpload draws fires ui).emitted
      = (List.range 20).map (fun j => simSample (draws j)) ∧
    (simulateUpload draws fires ui).resolved = [simSample (draws 19)] ∧
    (simulateUpload draws fires ui).speed = simSample (draws 19) := by
  obtain ⟨m, rfl⟩ : ∃ m, fires = 19 + (1 + m) := ⟨fires - 20, by omega⟩
  unfold simulateUpload
  rw [simRun_add, simRun_add]
  have hact0 : (simInit ui).timerActive = true := rfl
  have hp0 : (simInit ui).progress = 0 := rfl
  have he0 : (simInit ui).emitted = [] := rfl
  have hr0 : (simInit ui).resolved = [] := rfl
  have h19 := simRun_active draws 19 0 (simInit ui) hact0 (by rw [hp0]; norm_num)
  generalize simRun draws 19 0 (simInit ui) = st19 at h19 ⊢
  have hstep : simRun draws 1 (0 + 19) st19 = simTick st19 (draws 19) := by
    simp [simRun, h19.1]
  have ht := simTick_ge st19 (draws 19) (by rw [h19.2.1, hp0])
  rw [hstep, simRun_inactive _ _ _ _ ht.1]
  refine ⟨ht.1, ?_, ?_, ht.2.2.2.2⟩
  · have hr : List.range 20 = List.range 19 ++ [19] := List.range_succ 19
    rw [ht.2.2.1, h19.2.2.1, he0, ← List.range_eq_range', hr]
    simp
  · rw [ht.2.2.2.1, h19.2.2.2, hr0]; rfl

theorem simSample_bounds (r : ℚ) (h0 : 0 ≤ r) (h1 : r < 1) :
    ∃ q : ℚ, simSample r = JSNum.fin q ∧ 15 ≤ q ∧ q ≤ 35 :=
  ⟨15 + r * 20, rfl, by linarith, by linarith⟩

/-- C6: for every stream of random draws in `[0,1)`, once its timer has had 20
periods `simulateUpload` has passed exactly 20 samples to `updateUI`, each in
`[15, 35]`, has cleared its timer, and has called `resolve` exactly once, with
the last sample it emitted. -/
theorem simulateUpload_samples (draws : Nat → ℚ) (fires : Nat) (ui : UI)
    (hdraws : ∀ k, 0 ≤ draws k ∧ draws k < 1) (hfires : 20 ≤ fires) :
    (simulateUpload draws fires ui).emitted.length = 20 ∧
    (∀ s ∈ (simulateUpload draws fires ui).emitted,
      ∃ q : ℚ, s = JSNum.fin q ∧ 15 ≤ q ∧ q ≤ 35) ∧
    (simulateUpload draws fires ui).timerActive = false ∧
    (∃ v, (simulateUpload draws fires ui).resolved = [v] ∧
      (simulateUpload draws fires ui).emitted.getLast? = some v) := by
  have h := simulateUpload_done draws fires ui hfires
  refine ⟨by rw [h.2.1]; simp, ?_, h.1, simSample (draws 19), h.2.2.1, ?_⟩
  · intro s hs
    rw [h.2.1, List.mem_map] at hs
    obtain ⟨j, _, rfl⟩ := hs
    exact simSample_bounds _ (hdraws j).1 (hdraws j).2
  · have hr : List.range 20 = List.range 19 ++ [19] := List.range_succ 19
    rw [h.2.1, hr]
    simp

theorem drawsExample_range (k : Nat) : 0 ≤ drawsExample k ∧ drawsExample k < 1 := by
  unfold drawsExample
  split <;> norm_num

/-- C6, with draws alternating between 0 and 1/2 and the timer observed for 25
periods: 20 samples, timer cleared, one call of `resolve`. -/
theorem simulateUpload_samples_witness :
    (simulateUpload drawsExample 25 initialUI).emitted.length = 20 ∧
    (simulateUpload drawsExample 25 initialUI).timerActive = false :=
  have h := simulateUpload_samples drawsExample 25 initialUI drawsExample_range (by decide)
  ⟨h.1, h.2.2.1⟩

/-! ## The status trace through the phases -/

theorem dlStep_statusLog (startTime : ℚ) (st : DlState) (e : DlEvent) :
    (dlStep startTime st e).ui.statusLog = st.ui.statusLog := by
  cases e with
  | tick now => simp only [dlStep]; split <;> rfl
  | fetched w size now => simp only [dlStep]; split <;> rfl
  | failed w => simp only [dlStep]; split <;> rfl

theorem dlRun_statusLog (startTime : ℚ) (st : DlState) (evs : List DlEvent) :
    (dlRun startTime st evs).ui.statusLog = st.ui.statusLog := by
  induction evs generalizing st with
  | nil => rfl
  | cons e rest ih =>
    by_cases hdone : allDone st = true
    · rw [dlRun_of_allDone _ _ _ hdone]
    · rw [dlRun_cons _ _ _ _ hdone, ih, dlStep_statusLog]

theorem measureDownload_statusLog (inp : DlInput) (ui : UI) :
    (measureDownload inp ui).1.statusLog = ui.statusLog := by
  unfold measureDownload
  dsimp only
  split <;> exact dlRun_statusLog _ _ _

theorem simTick_statusLog (st : SimState) (r : ℚ) :
    (simTick st r).ui.statusLog = st.ui.statusLog := by
  unfold simTick
  dsimp only
  split <;> rfl

theorem simRun_statusLog (draws : Nat → ℚ) (n k : Nat) (st : SimState) :
    (simRun draws n k st).ui.statusLog = st.ui.statusLog := by
  induction n generalizing k st with
  | zero => rfl
  | succ n ih =>
    simp only [simRun]
    split
    · rw [ih, simTick_statusLog]
    · rfl

theorem progressRun_statusLog (startTime : ℚ) (ui : UI) (ps : List ProgressEvent) :
    (progressRun startTime ui ps).statusLog = ui.statusLog := by
  induction ps generalizing ui with
  | nil => rfl
  | cons e rest ih =>
    simp only [progressRun]
    split
    · rw [ih, updateUI_statusLog]
    · rw [ih]

theorem measureUpload_statusLog (inp : UlInput) (ui : UI) :
    (measureUpload inp ui).1.statusLog = ui.statusLog := by
  unfold measureUpload
  cases inp.xhr with
  | sendThrows => exact simRun_statusLog _ _ _ _
  | sent ps ending =>
    cases ending with
    | load now => exact progressRun_statusLog _ _ _
    | error =>
      dsimp only
      unfold simulateUpload
      rw [simRun_statusLog]
      exact progressRun_statusLog _ _ _
    | unhandled => exact progressRun_statusLog _ _ _

theorem settleWith_ne_error (calls : List JSNum) (e : String) :
    settleWith calls ≠ some (.error e) := by
  cases calls <;> simp [settleWith]

/-- The promise of `measureUpload` never rejects. -/
theorem measureUpload_never_rejects (inp : UlInput) (ui : UI) (e : String) :
    (measureUpload inp ui).2 ≠ some (.error e) := by
  unfold measureUpload
  cases inp.xhr with
  | sendThrows => dsimp only; exact settleWith_ne_error _ _
  | sent ps ending =>
    cases ending with
    | load now => dsimp only; exact settleWith_ne_error _ _
    | error => dsimp only; exact settleWith_ne_error _ _
    | unhandled => simp

/-- The status trace of a run: `startTest` only ever appends the progress
messages of the phases it reaches, and none of them is the error message. -/
theorem startTest_statusLog (env : Env) (ui : UI) (hidle : ui.isTesting = false) :
    ∃ l : List String,
      (startTest env ui).statusLog =
        ui.statusLog ++ "Measuring Latency..." :: "Testing Download..." :: l ∧
      "Error Occurred" ∉ l := by
  obtain ⟨v, hv⟩ := measurePing_ok env.probes
  unfold startTest
  rw [if_neg (by simp [hidle]), hv]
  dsimp only
  generalize hui1 : setStatus (setActiveIndicator _ "dl") "Testing Download..." = ui1
  have hlog1 : ui1.statusLog =
      ui.statusLog ++ ["Measuring Latency...", "Testing Download..."] := by
    rw [← hui1]
    simp [setStatus, setActiveIndicator, updateUI, setGaugePercent]
  have hd1 := measureDownload_statusLog env.dl ui1
  have hd2 := measureDownload_never_rejects env.dl ui1
  rcases hmd : measureDownload env.dl ui1 with ⟨ui2, r⟩
  rw [hmd] at hd1 hd2
  dsimp only at hd1 hd2
  cases r with
  | none => exact ⟨[], by simp [hd1, hlog1], by simp⟩
  | some res =>
    cases res with
    | error e => exact absurd rfl (hd2 e)
    | ok dlSpeed =>
      dsimp only
      generalize hui3 : setStatus (setActiveIndicator _ "ul") "Testing Upload..." = ui3
      have hlog3 : ui3.statusLog =
          ui.statusLog ++ ["Measuring Latency...", "Testing Download...", "Testing Upload..."] := by
        rw [← hui3]
        simp [setStatus, setActiveIndicator, setGaugePercent, hd1, hlog1]
      have hu1 := measureUpload_statusLog env.ul ui3
      have hu2 := measureUpload_never_rejects env.ul ui3
      rcases hmu : measureUpload env.ul ui3 with ⟨ui4, r2⟩
      rw [hmu] at hu1 hu2
      dsimp only at hu1 hu2
      cases r2 with
      | none => exact ⟨["Testing Upload..."], by simp [hu1, hlog3], by decide⟩
      | some res2 =>
        cases res2 with
        | error e => exact absurd rfl (hu2 e)
        | ok ulSpeed =>
          refine ⟨["Testing Upload...", "Test Complete"], ?_, by decide⟩
          simp [finallyBlock, setStatus, setActiveIndicator, setGaugePercent, hu1, hlog3]

theorem dlStep_alerts (startTime : ℚ) (st : DlState) (e : DlEvent) :
    (dlStep startTime st e).ui.alerts = st.ui.alerts := by
  cases e with
  | tick now => simp only [dlStep]; split <;> rfl
  | fetched w size now => simp only [dlStep]; split <;> rfl
  | failed w => simp only [dlStep]; split <;> rfl

theorem dlRun_alerts (startTime : ℚ) (st : DlState) (evs : List DlEvent) :
    (dlRun startTime st evs).ui.alerts = st.ui.alerts := by
  induction evs generalizing st with
  | nil => rfl
  | cons e rest ih =>
    by_cases hdone : allDone st = true
    · rw [dlRun_of_allDone _ _ _ hdone]
    · rw [dlRun_cons _ _ _ _ hdone, ih, dlStep_alerts]

theorem measureDownload_alerts (inp : DlInput) (ui : UI) :
    (measureDownload inp ui).1.alerts = ui.alerts := by
  unfold measureDownload
  dsimp only
  split <;> exact dlRun_alerts _ _ _

theorem simTick_alerts (st : SimState) (r : ℚ) :
    (simTick st r).ui.alerts = st.ui.alerts := by
  unfold simTick
  dsimp only
  split <;> rfl

theorem simRun_alerts (draws : Nat → ℚ) (n k : Nat) (st : SimState) :
    (simRun draws n k st).ui.alerts = st.ui.alerts := by
  induction n generalizing k st with
  | zero => rfl
  | succ n ih =>
    simp only [simRun]
    split
    · rw [ih, simTick_alerts]
    · rfl

theorem progressRun_alerts (startTime : ℚ) (ui : UI) (ps : List ProgressEvent) :
    (progressRun startTime ui ps).alerts = ui.alerts := by
  induction ps generalizing ui with
  | nil => rfl
  | cons e rest ih =>
    simp only [progressRun]
    split
    · rw [ih]; rfl
    · rw [ih]

theorem measureUpload_alerts (inp : UlInput) (ui : UI) :
    (measureUpload inp ui).1.alerts = ui.alerts := by
  unfold measureUpload
  cases inp.xhr with
  | sendThrows => exact simRun_alerts _ _ _ _
  | sent ps ending =>
    cases ending with
    | load now => exact progressRun_alerts _ _ _
    | error =>
      dsimp only
      unfold simulateUpload
      rw [simRun_alerts]
      exact progressRun_alerts _ _ _
    | unhandled => exact progressRun_alerts _ _ _

/-- No run ever raises the error alert: `startTest` leaves `alerts` as it found it. -/
theorem startTest_alerts (env : Env) (ui : UI) : (startTest env ui).alerts = ui.alerts := by
  obtain ⟨v, hv⟩ := measurePing_ok env.probes
  unfold startTest
  split
  · rfl
  · rw [hv]
    dsimp only
    generalize hui1 : setStatus (setActiveIndicator _ "dl") "Testing Download..." = ui1
    have hlog1 : ui1.alerts = ui.alerts := by
      rw [← hui1]; rfl
    have hd1 := measureDownload_alerts env.dl ui1
    have hd2 := measureDownload_never_rejects env.dl ui1
    rcases hmd : measureDownload env.dl ui1 with ⟨ui2, r⟩
    rw [hmd] at hd1 hd2
    dsimp only at hd1 hd2
    cases r with
    | none => dsimp only; rw [hd1, hlog1]
    | some res =>
      cases res with
      | error e => exact absurd rfl (hd2 e)
      | ok dlSpeed =>
        dsimp only
        generalize hui3 : setStatus (setActiveIndicator _ "ul") "Testing Upload..." = ui3
        have hlog3 : ui3.alerts = ui.alerts := by
          rw [← hui3]
          simp [setStatus, setActiveIndicator, setGaugePercent, hd1, hlog1]
        have hu1 := measureUpload_alerts env.ul ui3
        have hu2 := measureUpload_never_rejects env.ul ui3
        rcases hmu : measureUpload env.ul ui3 with ⟨ui4, r2⟩
        rw [hmu] at hu1 hu2
        dsimp only at hu1 hu2
        cases r2 with
        | none => dsimp only; rw [hu1, hlog3]
        | some res2 =>
          cases res2 with
          | error e => exact absurd rfl (hu2 e)
          | ok ulSpeed =>
            simp [finallyBlock, setStatus, setActiveIndicator, setGaugePercent, hu1, hlog3]

/-- The status trace of a run never gains the error message. -/
theorem startTest_no_error (env : Env) (ui : UI) :
    "Error Occurred" ∉ (startTest env ui).statusLog.drop ui.statusLog.length := by
  cases hidle : ui.isTesting
  · obtain ⟨l, hl, hne⟩ := startTest_statusLog env ui hidle
    rw [hl, List.drop_left]
    intro hmem
    simp only [List.mem_cons] at hmem
    rcases hmem with h | h | h
    · exact absurd h (by decide)
    · exact absurd h (by decide)
    · exact hne h
  · have : startTest env ui = ui := by simp [startTest, hidle]
    rw [this]
    simp

/-- C2: if all five latency probes fail, `measurePing` fulfils with 0 (a finite,
non-negative number, not `NaN`) and does not reject, and the run goes on to the
download phase. -/
theorem measurePing_all_fail (env : Env) (ui : UI)
    (hall : ∀ i, i < 5 → (env.probes i).finish = none) (hidle : ui.isTesting = false) :
    measurePing env.probes = .ok (JSNum.fin 0) ∧
    "Testing Download..." ∈ (startTest env ui).statusLog ∧
    "Error Occurred" ∉ ((startTest env ui).statusLog.drop ui.statusLog.length) := by
  have hnil : successDurations env.probes = [] := by
    rw [successDurations, List.filterMap_eq_nil_iff]
    intro i hi
    rw [hall i (List.mem_range.mp hi)]
    rfl
  obtain ⟨l, hl, _⟩ := startTest_statusLog env ui hidle
  exact ⟨by rw [measurePing_eq, hnil]; rfl, by rw [hl]; simp, startTest_no_error env ui⟩

/-- C2, on a run whose five probes all fail: the ping result is 0 and the status
trace reaches the download phase. -/
theorem measurePing_all_fail_witness :
    measurePing envNoPing.probes = .ok (JSNum.fin 0) ∧
    "Testing Download..." ∈ (startTest envNoPing initialUI).statusLog :=
  have h := measurePing_all_fail envNoPing initialUI (fun _ _ => rfl) rfl
  ⟨h.1, h.2.1⟩

/-! ## Upload: structural failure falls back to the simulation -/

/-- Whether every worker has stopped does not depend on the user interface the
phase started from. -/
theorem allDone_ui_indep (inp : DlInput) (ui ui2 : UI) :
    allDone (dlRun inp.startTime (dlInit inp ui) inp.events)
      = allDone (dlRun inp.startTime (dlInit inp ui2) inp.events) := by
  have h1 := dlRun_dropTicks inp.startTime (dlInit inp ui) (dlInit inp ui) inp.events rfl rfl
  have h2 := dlRun_dropTicks inp.startTime (dlInit inp ui2) (dlInit inp ui) inp.events rfl rfl
  simp only [allDone, h1.2, h2.2]

/-- On a structural failure the promise of `measureUpload` is settled by the
`resolve` calls of one `simulateUpload` run, and by nothing else. -/
theorem measureUpload_fallback (inp : UlInput) (ui : UI)
    (hfail : inp.xhr = .sendThrows ∨ ∃ ps, inp.xhr = .sent ps .error) :
    ∃ ui2 : UI,
      (measureUpload inp ui).2 = settleWith (simulateUpload inp.draws inp.fires ui2).resolved ∧
      (measureUpload inp ui).1 = (simulateUpload inp.draws inp.fires ui2).ui := by
  unfold measureUpload
  rcases hfail with h | ⟨ps, h⟩
  · rw [h]; exact ⟨ui, rfl, rfl⟩
  · rw [h]; exact ⟨progressRun inp.startTime ui ps, rfl, rfl⟩

theorem measureUpload_fallback_value (inp : UlInput) (ui : UI)
    (hfail : inp.xhr = .sendThrows ∨ ∃ ps, inp.xhr = .sent ps .error)
    (hfires : 20 ≤ inp.fires) :
    (measureUpload inp ui).2 = some (.ok (simSample (inp.draws 19))) := by
  obtain ⟨ui2, h, _⟩ := measureUpload_fallback inp ui hfail
  rw [h, (simulateUpload_done inp.draws inp.fires ui2 hfires).2.2.1]
  rfl

/-- When the download phase completes and the upload promise fulfils with `v`,
the run ends with the status `Test Complete` and shows `v` as the upload value. -/
theorem startTest_complete (env : Env) (ui : UI) (v : JSNum) (hidle : ui.isTesting = false)
    (hdone : allDone (dlRun env.dl.startTime (dlInit env.dl ui) env.dl.events) = true)
    (hul : ∀ ui1, (measureUpload env.ul ui1).2 = some (.ok v)) :
    (startTest env ui).status = "Test Complete" ∧
    (startTest env ui).ulVal = Text.fixed v 1 "" ∧
    (startTest env ui).isTesting = false := by
  obtain ⟨p, hp⟩ := measurePing_ok env.probes
  unfold startTest
  rw [if_neg (by simp [hidle]), hp]
  dsimp only
  generalize setStatus (setActiveIndicator _ "dl") "Testing Download..." = ui1
  have hdone1 : allDone (dlRun env.dl.startTime (dlInit env.dl ui1) env.dl.events) = true := by
    rw [← hdone]; exact allDone_ui_indep _ _ _
  obtain ⟨d, hd⟩ := measureDownload_completes env.dl ui1 hdone1
  rcases hmd : measureDownload env.dl ui1 with ⟨ui2, r⟩
  rw [hmd] at hd
  dsimp only at hd
  subst hd
  dsimp only
  generalize setStatus (setActiveIndicator _ "ul") "Testing Upload..." = ui3
  have hu := hul ui3
  rcases hmu : measureUpload env.ul ui3 with ⟨ui4, r2⟩
  rw [hmu] at hu
  dsimp only at hu
  subst hu
  simp [finallyBlock, setStatus, setActiveIndicator, setGaugePercent]

/-- C5: when the upload fails structurally (`xhr.send` throws, or the `error`
event fires), the promise of `measureUpload` never rejects and is settled by the
`resolve` call of `simulateUpload`: once the simulation timer has had its 20
periods it is fulfilled with the last simulated sample.  `startTest` does not
enter its error branch, and a run whose download phase completed ends with
`Test Complete` and that sample as upload value. -/
theorem measureUpload_structural_failure (env : Env) (ui : UI)
    (hfail : env.ul.xhr = .sendThrows ∨ ∃ ps, env.ul.xhr = .sent ps .error) :
    (∀ ui1 e, (measureUpload env.ul ui1).2 ≠ some (.error e)) ∧
    (∀ ui1, ∃ ui2 : UI,
      (measureUpload env.ul ui1).2
        = settleWith (simulateUpload env.ul.draws env.ul.fires ui2).resolved) ∧
    (20 ≤ env.ul.fires →
      ∀ ui1, (measureUpload env.ul ui1).2 = some (.ok (simSample (env.ul.draws 19)))) ∧
    "Error Occurred" ∉ (startTest env ui).statusLog.drop ui.statusLog.length ∧
    (startTest env ui).alerts = ui.alerts ∧
    (ui.isTesting = false → 20 ≤ env.ul.fires →
      allDone (dlRun env.dl.startTime (dlInit env.dl ui) env.dl.events) = true →
      (startTest env ui).status = "Test Complete" ∧
      (startTest env ui).ulVal = Text.fixed (simSample (env.ul.draws 19)) 1 "") := by
  refine ⟨fun ui1 e => measureUpload_never_rejects env.ul ui1 e, ?_, ?_, ?_, ?_, ?_⟩
  · intro ui1
    obtain ⟨ui2, h, _⟩ := measureUpload_fallback env.ul ui1 hfail
    exact ⟨ui2, h⟩
  · intro hfires ui1
    exact measureUpload_fallback_value env.ul ui1 hfail hfires
  · exact startTest_no_error env ui
  · exact startTest_alerts env ui
  · intro hidle hfires hdone
    have h := startTest_complete env ui _ hidle hdone
      (fun ui1 => measureUpload_fallback_value env.ul ui1 hfail hfires)
    exact ⟨h.1, h.2.1⟩

theorem envExample_done :
    allDone (dlRun envExample.dl.startTime (dlInit envExample.dl initialUI)
      envExample.dl.events) = true := dlExample_run.1

/-- C5, on a run whose `xhr.send` throws: the run ends with `Test Complete` and
shows the last simulated sample, 25 Mbit/s, as upload value. -/
theorem measureUpload_structural_failure_witness :
    (startTest envExample initialUI).status = "Test Complete" ∧
    (startTest envExample initialUI).ulVal = Text.fixed (JSNum.fin 25) 1 "" := by
  have h := (measureUpload_structural_failure envExample initialUI (Or.inl rfl)).2.2.2.2.2
    rfl (by decide) envExample_done
  refine ⟨h.1, ?_⟩
  rw [h.2]
  norm_num [simSample, envExample, ulSendThrows, drawsExample]

end SpeedTest
